import Mathlib

/-!
Shallow embedding of the stock price consensus engine (src/main.py).

Modelling conventions:
* Prices (Python floats) are modelled as rationals `ℚ`; Python's
  `round(x, 2)` is modelled as rounding `x` to two decimal places.
* One adapter reading is `Option ℚ` (`None` for an unavailable price);
  a fetch call is modelled as a function of the list of per-adapter
  readings `List (String × Option ℚ)`, one entry per registered source
  in registration order, since the network is external.
* The Python `dict` used for `source_map` is modelled as an association
  list with insertion-order dict semantics (`dictInsert`).
* Wall-clock time is modelled as minutes since an epoch placed at a
  Monday 00:00 UTC, so that `weekday = (minutes / 1440) % 7` with
  Monday = 0, as in Python's `datetime.weekday()`.
* IO-only fields (`scraped_at` timestamps) and the constant
  `price_type = "LIVE"` field are omitted from the result model.
-/

/-- Config constant `MIN_VALID_SOURCES = 1` from src/main.py. -/
def MIN_VALID_SOURCES : Nat := 1

/-- Config constant `MAX_PRICE_DEVIATION = 0.5` (percent) from src/main.py. -/
def MAX_PRICE_DEVIATION : ℚ := 1 / 2

/-- The decimal rendering of `MAX_PRICE_DEVIATION` as Python interpolates it
into the `LOW_CONFIDENCE` message string. -/
def MAX_PRICE_DEVIATION_STR : String := "0.5"

/-- `MARKET_OPEN_TIME`: the `tm_hour` of "09:30:00", i.e. 9 (src/main.py line 23). -/
def MARKET_OPEN_TIME : Int := 9

/-- `MARKET_CLOSE_TIME`: the `tm_hour` of "16:00:00", i.e. 16 (src/main.py line 24). -/
def MARKET_CLOSE_TIME : Int := 16

/-- `ET_OFFSET = timedelta(hours=-5)` from `market_is_open`, in minutes. -/
def ET_OFFSET_MIN : Int := -300

/-- `market_is_open` from src/main.py: computes the Eastern-Time clock by a
fixed -5h shift, then checks `(h > 9 or (h == 9 and m >= 30)) and h < 16`
and excludes Saturday/Sunday (`weekday() >= 5`). `utcMin` is the current
UTC wall-clock time in minutes since the Monday-00:00 epoch. -/
def market_is_open (utcMin : Int) : Bool :=
  let now_et := utcMin + ET_OFFSET_MIN
  let current_hour := now_et % 1440 / 60
  let current_minute := now_et % 1440 % 60
  let is_open :=
    (decide (current_hour > MARKET_OPEN_TIME) ||
      (decide (current_hour = MARKET_OPEN_TIME) && decide (current_minute ≥ 30))) &&
    decide (current_hour < MARKET_CLOSE_TIME)
  let is_weekend := decide (now_et / 1440 % 7 ≥ 5)
  is_open && !is_weekend

/-- Modelled from the spec (§4.2): the market clock is true when the time,
shifted by the fixed exchange offset, falls in the half-open session window
[09:30, 16:00) and lands on a weekday (Saturday/Sunday excluded). -/
def marketOpenSpec (utcMin : Int) : Prop :=
  (9 * 60 + 30 ≤ (utcMin + ET_OFFSET_MIN) % 1440 ∧
    (utcMin + ET_OFFSET_MIN) % 1440 < 16 * 60) ∧
  (utcMin + ET_OFFSET_MIN) / 1440 % 7 < 5

/-- `is_valid_price` from src/main.py: `price is not None and price > 0`. -/
def is_valid_price : Option ℚ → Bool
  | none => false
  | some p => decide (0 < p)

/-- `statistics.median`: sort, take the middle element (odd length) or the
mean of the two middle elements (even length). Python raises on the empty
list; the model returns 0 there (the engine never calls it on `[]`). -/
def median (l : List ℚ) : ℚ :=
  let s := l.insertionSort (· ≤ ·)
  let n := l.length
  if n % 2 = 1 then s.getD (n / 2) 0
  else (s.getD (n / 2 - 1) 0 + s.getD (n / 2) 0) / 2

/-- `statistics.mean`: sum divided by length (0 on `[]` in the model). -/
def mean (l : List ℚ) : ℚ := l.sum / l.length

/-- Python's `round(x, 2)`: round to two decimal places. (Half-way cases are
idealised to round-half-up; no claim depends on tie behaviour.) -/
def round2 (q : ℚ) : ℚ := (round (q * 100) : ℚ) / 100

/-- The deviation filter inside `consensus_price` (src/main.py lines 153-156):
keep the prices within `MAX_PRICE_DEVIATION` percent of the median. -/
def filteredPrices (prices : List ℚ) : List ℚ :=
  prices.filter fun p =>
    decide (|p - median prices| / median prices * 100 ≤ MAX_PRICE_DEVIATION)

/-- `consensus_price` from src/main.py: `None` below the minimum source
count, else median-anchored deviation filter, re-check the count, then the
rounded mean of the retained prices. -/
def consensus_price (prices : List ℚ) : Option ℚ :=
  if prices.length < MIN_VALID_SOURCES then none
  else if (filteredPrices prices).length < MIN_VALID_SOURCES then none
  else some (round2 (mean (filteredPrices prices)))

/-- `confidence_score` from src/main.py: 0.0 when no final price exists,
else `round(min(1.0, valid_count / total_sources + 0.1), 2)`. -/
def confidence_score (valid_count total_sources : Nat) (final_price_exists : Bool) : ℚ :=
  if !final_price_exists then 0
  else round2 (min 1 ((valid_count : ℚ) / (total_sources : ℚ) + 1 / 10))

/-- A value of the per-source map: a price, or the `"FAILED"` sentinel. -/
inductive SourceEntry
  | price (p : ℚ)
  | failed
deriving DecidableEq

/-- `AggregationResult`: the success dict or the `_error` dict of
src/main.py (timestamps omitted, see the module header). -/
inductive FetchResult
  | success (symbol : String) (price : ℚ) (confidence : ℚ)
      (sources_used : List String)
      (source_prices : List (String × SourceEntry)) (market_state : String)
  | failure (error : String) (message : String)
      (source_prices : List (String × SourceEntry))
deriving DecidableEq

/-- Python-dict assignment `m[k] = v` on an association list: update in
place when the key exists, else append (insertion order preserved). -/
def dictInsert (m : List (String × SourceEntry)) (k : String) (v : SourceEntry) :
    List (String × SourceEntry) :=
  if m.any (fun kv => kv.1 == k) then
    m.map fun kv => if kv.1 == k then (k, v) else kv
  else m ++ [(k, v)]

/-- One iteration of the data-gathering loop of `fetch_price`
(src/main.py lines 206-216): accumulator is
(`source_map`, `raw_prices`, `valid_count`). -/
def gatherStep (acc : List (String × SourceEntry) × List ℚ × Nat)
    (sr : String × Option ℚ) : List (String × SourceEntry) × List ℚ × Nat :=
  if is_valid_price sr.2 then
    (dictInsert acc.1 sr.1 (SourceEntry.price (sr.2.getD 0)),
      acc.2.1 ++ [sr.2.getD 0], acc.2.2 + 1)
  else
    (dictInsert acc.1 sr.1 SourceEntry.failed, acc.2.1, acc.2.2)

/-- The whole data-gathering loop over the per-adapter readings. -/
def gather (readings : List (String × Option ℚ)) :
    List (String × SourceEntry) × List ℚ × Nat :=
  readings.foldl gatherStep ([], [], 0)

/-- The `source_map` built by the gathering loop. -/
def sourceMap (readings : List (String × Option ℚ)) : List (String × SourceEntry) :=
  (gather readings).1

/-- The `raw_prices` list built by the gathering loop. -/
def rawPrices (readings : List (String × Option ℚ)) : List ℚ :=
  (gather readings).2.1

/-- The `valid_count` computed by the gathering loop. -/
def validCount (readings : List (String × Option ℚ)) : Nat :=
  (gather readings).2.2

/-- The `INSUFFICIENT_DATA` message f-string of src/main.py line 224. -/
def insufficientMsg (found : Nat) : String :=
  "Requires " ++ toString MIN_VALID_SOURCES ++
    " reliable sources, but only found " ++ toString found

/-- The `LOW_CONFIDENCE` message f-string of src/main.py line 235. -/
def lowConfidenceMsg : String :=
  "Prices deviated by more than " ++ MAX_PRICE_DEVIATION_STR ++ "%. Check raw prices."

/-- `sources_used` of the success dict: the keys of `source_map` whose
value is not the `"FAILED"` sentinel. -/
def sources_used (m : List (String × SourceEntry)) : List String :=
  (m.filter fun kv => !(kv.2 == SourceEntry.failed)).map Prod.fst

/-- `StockPriceEngine.fetch_price` from src/main.py, as a function of the
symbol, the market-clock value at call time, and the list of per-adapter
readings (one per registered source, in registration order; the engine's
`total_sources` is therefore `readings.length`). -/
def fetch_price (symbol : String) (marketOpen : Bool)
    (readings : List (String × Option ℚ)) : FetchResult :=
  if validCount readings < MIN_VALID_SOURCES then
    FetchResult.failure "INSUFFICIENT_DATA"
      (insufficientMsg (validCount readings)) (sourceMap readings)
  else
    match consensus_price (rawPrices readings) with
    | none =>
        FetchResult.failure "LOW_CONFIDENCE" lowConfidenceMsg (sourceMap readings)
    | some final_price =>
        FetchResult.success symbol.toUpper final_price
          (confidence_score (validCount readings) readings.length true)
          (sources_used (sourceMap readings)) (sourceMap readings)
          (if marketOpen then "OPEN" else "CLOSED")

/-- The registered adapters of `StockPriceEngine.__init__`, by name and in
registration order. -/
def registeredSources : List String := ["YahooFinance", "Stooq"]

/-- The confidence field of a result; a Failure dict has no confidence
field, which the model reads as 0. -/
def result_confidence : FetchResult → ℚ
  | FetchResult.success _ _ c _ _ _ => c
  | FetchResult.failure _ _ _ => 0

/-- The per-source map carried by a result (success or failure). -/
def result_source_prices : FetchResult → List (String × SourceEntry)
  | FetchResult.success _ _ _ _ m _ => m
  | FetchResult.failure _ _ m => m

/-- Whether a result is a Failure. -/
def isFailure : FetchResult → Bool
  | FetchResult.failure _ _ _ => true
  | _ => false

/-! ## Characterising the gathering loop -/

def entryOf (sr : String × Option ℚ) : SourceEntry :=
  if is_valid_price sr.2 then SourceEntry.price (sr.2.getD 0) else SourceEntry.failed

def mapFold (m : List (String × SourceEntry)) (readings : List (String × Option ℚ)) :
    List (String × SourceEntry) :=
  readings.foldl (fun mm sr => dictInsert mm sr.1 (entryOf sr)) m

def validPrices (readings : List (String × Option ℚ)) : List ℚ :=
  readings.filterMap fun sr =>
    if is_valid_price sr.2 then some (sr.2.getD 0) else none

/-! ## Helper lemmas -/

theorem filteredPrices_eq_self (prices : List ℚ)
    (h : ∀ p ∈ prices, |p - median prices| / median prices * 100 ≤ MAX_PRICE_DEVIATION) :
    filteredPrices prices = prices := by
  unfold filteredPrices
  exact List.filter_eq_self.mpr fun p hp => decide_eq_true (h p hp)

theorem median_mem_of_odd (l : List ℚ) (h : l.length % 2 = 1) : median l ∈ l := by
  unfold median
  simp only [h, if_pos]
  have hlen : (l.insertionSort (· ≤ ·)).length = l.length :=
    List.length_insertionSort _ _
  have hlt : l.length / 2 < (l.insertionSort (· ≤ ·)).length := by omega
  rw [List.getD_eq_getElem _ _ hlt]
  exact (List.mem_insertionSort _).mp (List.getElem_mem hlt)

theorem gather_foldl (readings : List (String × Option ℚ)) :
    ∀ m r n, readings.foldl gatherStep (m, r, n) =
      (mapFold m readings, r ++ validPrices readings,
        n + (validPrices readings).length) := by
  induction readings with
  | nil =>
    intro m r n
    simp [mapFold, validPrices]
  | cons sr rest ih =>
    intro m r n
    rw [List.foldl_cons]
    by_cases h : is_valid_price sr.2
    · rw [show gatherStep (m, r, n) sr =
          (dictInsert m sr.1 (SourceEntry.price (sr.2.getD 0)),
            r ++ [sr.2.getD 0], n + 1) by simp [gatherStep, h]]
      rw [ih]
      have hvp : validPrices (sr :: rest) = sr.2.getD 0 :: validPrices rest := by
        simp [validPrices, List.filterMap_cons, h]
      have hmf : mapFold m (sr :: rest) =
          mapFold (dictInsert m sr.1 (SourceEntry.price (sr.2.getD 0))) rest := by
        simp [mapFold, entryOf, h]
      rw [hvp, hmf]
      simp only [Prod.mk.injEq, List.append_assoc, List.singleton_append,
        List.length_cons]
      exact ⟨trivial, trivial, by omega⟩
    · rw [show gatherStep (m, r, n) sr =
          (dictInsert m sr.1 SourceEntry.failed, r, n) by simp [gatherStep, h]]
      rw [ih]
      have hvp : validPrices (sr :: rest) = validPrices rest := by
        simp [validPrices, List.filterMap_cons, h]
      have hmf : mapFold m (sr :: rest) =
          mapFold (dictInsert m sr.1 SourceEntry.failed) rest := by
        simp [mapFold, entryOf, h]
      rw [hvp, hmf]

theorem rawPrices_eq (readings : List (String × Option ℚ)) :
    rawPrices readings = validPrices readings := by
  unfold rawPrices gather
  rw [gather_foldl]
  simp

theorem validCount_eq (readings : List (String × Option ℚ)) :
    validCount readings = (validPrices readings).length := by
  unfold validCount gather
  rw [gather_foldl]
  simp

theorem sourceMap_eq (readings : List (String × Option ℚ)) :
    sourceMap readings = mapFold [] readings := by
  unfold sourceMap gather
  rw [gather_foldl]

theorem dictInsert_of_not_mem (m : List (String × SourceEntry)) (k : String)
    (v : SourceEntry) (h : ∀ kv ∈ m, kv.1 ≠ k) :
    dictInsert m k v = m ++ [(k, v)] := by
  unfold dictInsert
  rw [if_neg]
  intro hany
  rcases List.any_eq_true.mp hany with ⟨kv, hkv, hbeq⟩
  exact h kv hkv (by simpa using hbeq)

theorem mapFold_keys (readings : List (String × Option ℚ)) :
    ∀ m : List (String × SourceEntry),
      (m.map Prod.fst ++ readings.map Prod.fst).Nodup →
      (mapFold m readings).map Prod.fst = m.map Prod.fst ++ readings.map Prod.fst := by
  induction readings with
  | nil =>
    intro m _
    simp [mapFold]
  | cons sr rest ih =>
    intro m h
    have hk : ∀ kv ∈ m, kv.1 ≠ sr.1 := by
      intro kv hkv
      have hdisj := (List.nodup_append.mp h).2.2
      exact fun he =>
        hdisj (List.mem_map_of_mem Prod.fst hkv) (he ▸ List.mem_cons_self _ _)
    have hstep : mapFold m (sr :: rest) =
        mapFold (m ++ [(sr.1, entryOf sr)]) rest := by
      simp [mapFold, dictInsert_of_not_mem m sr.1 _ hk]
    rw [hstep, ih (m ++ [(sr.1, entryOf sr)]) (by simpa using h)]
    simp

theorem dictInsert_mem_or (kv : String × SourceEntry)
    (m : List (String × SourceEntry)) (k : String) (v : SourceEntry)
    (h : kv ∈ dictInsert m k v) : kv ∈ m ∨ kv = (k, v) := by
  unfold dictInsert at h
  split at h
  · rcases List.mem_map.mp h with ⟨kv2, hkv2, heq⟩
    by_cases hb : (kv2.1 == k) = true
    · rw [if_pos hb] at heq
      right
      exact heq.symm
    · rw [if_neg hb] at heq
      left
      exact heq ▸ hkv2
  · rcases List.mem_append.mp h with h2 | h2
    · left
      exact h2
    · right
      simpa using h2

theorem dictInsert_key_mem (m : List (String × SourceEntry)) (k : String)
    (v : SourceEntry) : k ∈ (dictInsert m k v).map Prod.fst := by
  unfold dictInsert
  split
  · next hany =>
    rcases List.any_eq_true.mp hany with ⟨kv, hkv, hbeq⟩
    refine List.mem_map.mpr ⟨(k, v), ?_, rfl⟩
    refine List.mem_map.mpr ⟨kv, hkv, ?_⟩
    rw [if_pos hbeq]
  · simp

theorem dictInsert_keys_mono (m : List (String × SourceEntry)) (k : String)
    (v : SourceEntry) (a : String) (h : a ∈ m.map Prod.fst) :
    a ∈ (dictInsert m k v).map Prod.fst := by
  unfold dictInsert
  split
  · rcases List.mem_map.mp h with ⟨kv, hkv, rfl⟩
    by_cases hb : (kv.1 == k) = true
    · have : kv.1 = k := by simpa using hb
      refine List.mem_map.mpr ⟨(k, v), List.mem_map.mpr ⟨kv, hkv, by rw [if_pos hb]⟩, this.symm⟩
    · refine List.mem_map.mpr ⟨kv, List.mem_map.mpr ⟨kv, hkv, by rw [if_neg hb]⟩, rfl⟩
  · simp [h]

theorem mapFold_keys_mono (readings : List (String × Option ℚ)) :
    ∀ (m : List (String × SourceEntry)) (a : String),
      a ∈ m.map Prod.fst → a ∈ (mapFold m readings).map Prod.fst := by
  induction readings with
  | nil =>
    intro m a h
    simpa [mapFold] using h
  | cons sr rest ih =>
    intro m a h
    exact ih _ a (dictInsert_keys_mono m sr.1 (entryOf sr) a h)

theorem mapFold_key_of_reading (readings : List (String × Option ℚ)) :
    ∀ (m : List (String × SourceEntry)) (sr : String × Option ℚ),
      sr ∈ readings → sr.1 ∈ (mapFold m readings).map Prod.fst := by
  induction readings with
  | nil =>
    intro m sr h
    exact absurd h (List.not_mem_nil _)
  | cons sr0 rest ih =>
    intro m sr h
    rcases List.mem_cons.mp h with h | h
    · subst h
      exact mapFold_keys_mono rest _ sr.1 (dictInsert_key_mem m sr.1 (entryOf sr))
    · exact ih _ sr h

theorem mapFold_values_failed (readings : List (String × Option ℚ)) :
    ∀ m : List (String × SourceEntry),
      (∀ kv ∈ m, kv.2 = SourceEntry.failed) →
      (∀ sr ∈ readings, entryOf sr = SourceEntry.failed) →
      ∀ kv ∈ mapFold m readings, kv.2 = SourceEntry.failed := by
  induction readings with
  | nil =>
    intro m hm _ kv hkv
    exact hm kv (by simpa [mapFold] using hkv)
  | cons sr rest ih =>
    intro m hm hr kv hkv
    refine ih (dictInsert m sr.1 (entryOf sr)) ?_ (fun x hx => hr x (List.mem_cons_of_mem _ hx)) kv hkv
    intro kv2 hkv2
    rcases dictInsert_mem_or kv2 m sr.1 (entryOf sr) hkv2 with h2 | h2
    · exact hm kv2 h2
    · rw [h2]
      exact hr sr (List.mem_cons_self _ _)

/-! ## Engine-level helper lemmas -/

theorem round2_eval (q : ℚ) (z : ℤ) (h : q * 100 = (z : ℚ)) :
    round2 q = (z : ℚ) / 100 := by
  unfold round2
  rw [h, round_intCast]

theorem round2_pos_of_tenth_le (x : ℚ) (h : 1 / 10 ≤ x) : 0 < round2 x := by
  unfold round2
  have h10 : (10 : ℤ) ≤ round (x * 100) := by
    rw [round_eq]
    refine Int.le_floor.mpr ?_
    push_cast
    linarith
  have : (10 : ℚ) ≤ (round (x * 100) : ℚ) := by exact_mod_cast h10
  positivity

theorem confidence_score_true_pos (vc ts : Nat) :
    0 < confidence_score vc ts true := by
  unfold confidence_score
  simp only [Bool.not_true, Bool.false_eq_true, if_false]
  refine round2_pos_of_tenth_le _ (le_min (by norm_num) ?_)
  have : (0 : ℚ) ≤ (vc : ℚ) / (ts : ℚ) := by positivity
  linarith

theorem result_source_prices_fetch (symbol : String) (mo : Bool)
    (readings : List (String × Option ℚ)) :
    result_source_prices (fetch_price symbol mo readings) = sourceMap readings := by
  unfold fetch_price
  split
  · simp [result_source_prices]
  · split
    · simp [result_source_prices]
    · simp [result_source_prices]

theorem validPrices_pos (readings : List (String × Option ℚ)) :
    ∀ p ∈ validPrices readings, 0 < p := by
  intro p hp
  unfold validPrices at hp
  rcases List.mem_filterMap.mp hp with ⟨sr, _, hf⟩
  by_cases h : is_valid_price sr.2
  · rw [if_pos h] at hf
    cases hsr : sr.2 with
    | none => rw [hsr] at h; exact absurd h (by simp [is_valid_price])
    | some q =>
      rw [hsr] at h hf
      have hq : 0 < q := by simpa [is_valid_price] using h
      have hpq : q = p := by simpa using hf
      exact hpq ▸ hq
  · rw [if_neg h] at hf
    exact absurd hf (by simp)

theorem consensus_some_of_odd (prices : List ℚ) (hpos : ∀ p ∈ prices, 0 < p)
    (hodd : prices.length % 2 = 1) : ∃ c, consensus_price prices = some c := by
  have hMIN : MIN_VALID_SOURCES = 1 := rfl
  have hm := median_mem_of_odd prices hodd
  have hfm : median prices ∈ filteredPrices prices := by
    refine List.mem_filter.mpr ⟨hm, decide_eq_true ?_⟩
    rw [sub_self, abs_zero, zero_div, zero_mul, MAX_PRICE_DEVIATION]
    norm_num
  have h2 : 0 < (filteredPrices prices).length :=
    List.length_pos.mpr (List.ne_nil_of_mem hfm)
  unfold consensus_price
  rw [if_neg (by omega), if_neg (by omega)]
  exact ⟨_, rfl⟩

theorem consensus_price_singleton : consensus_price [(150 : ℚ)] = some 150 := by
  have hm : median [(150 : ℚ)] = 150 := rfl
  have hfp : filteredPrices [(150 : ℚ)] = [150] := by
    unfold filteredPrices
    rw [List.filter_cons, List.filter_nil]
    rw [decide_eq_true (by rw [hm, sub_self, abs_zero, zero_div, zero_mul, MAX_PRICE_DEVIATION]; norm_num)]
    simp
  unfold consensus_price
  rw [hfp]
  rw [if_neg (by norm_num [MIN_VALID_SOURCES]), if_neg (by norm_num [MIN_VALID_SOURCES])]
  have hmean : mean [(150 : ℚ)] = 150 := by
    unfold mean
    norm_num
  rw [hmean, round2_eval 150 15000 (by norm_num)]
  norm_num

/-! ## Claims about the consensus algorithm -/

/-- C1: for every list of valid (strictly positive) prices whose length is at
least `MIN_VALID_SOURCES` and in which every price's absolute percentage
deviation from the list's median is at most the deviation threshold (0.5%),
`consensus_price` returns `round(mean(prices), 2)`. -/
theorem consensus_all_within_threshold (prices : List ℚ)
    (hlen : MIN_VALID_SOURCES ≤ prices.length)
    (hpos : ∀ p ∈ prices, 0 < p)
    (hdev : ∀ p ∈ prices,
      |p - median prices| / median prices * 100 ≤ MAX_PRICE_DEVIATION) :
    consensus_price prices = some (round2 (mean prices)) := by
  have hf := filteredPrices_eq_self prices hdev
  unfold consensus_price
  rw [hf, if_neg (by omega), if_neg (by omega)]

/-- Witness for C1: the spec's scenario prices 150.00 and 150.40 are both
within 0.5% of their median 150.20, and the consensus is the rounded mean. -/
theorem consensus_all_within_threshold_witness :
    consensus_price [(150 : ℚ), 752/5] = some (round2 (mean [(150 : ℚ), 752/5])) := by
  have hm : median [(150 : ℚ), 752/5] = 751/5 := by
    unfold median
    norm_num [List.insertionSort, List.orderedInsert, List.getD_cons_zero,
      List.getD_cons_succ]
  refine consensus_all_within_threshold [(150 : ℚ), 752/5]
    (by norm_num [MIN_VALID_SOURCES]) (by norm_num) ?_
  intro p hp
  rw [hm]
  rcases List.mem_pair.mp hp with h | h <;> subst h <;> rw [MAX_PRICE_DEVIATION]
  · rw [abs_of_nonpos (by norm_num)]
    norm_num
  · rw [abs_of_nonneg (by norm_num)]
    norm_num

/-- C2: for every list of valid prices containing exactly one outlier whose
percentage deviation from the median exceeds the threshold, with all
remaining prices within the threshold, `consensus_price` excludes the
outlier and returns the rounded arithmetic mean of the remaining prices. -/
theorem consensus_excludes_single_outlier (l1 l2 : List ℚ) (o : ℚ)
    (hpos : ∀ p ∈ l1 ++ o :: l2, 0 < p)
    (hlen : MIN_VALID_SOURCES ≤ (l1 ++ l2).length)
    (hout : MAX_PRICE_DEVIATION <
      |o - median (l1 ++ o :: l2)| / median (l1 ++ o :: l2) * 100)
    (hin : ∀ p ∈ l1 ++ l2,
      |p - median (l1 ++ o :: l2)| / median (l1 ++ o :: l2) * 100 ≤ MAX_PRICE_DEVIATION) :
    consensus_price (l1 ++ o :: l2) = some (round2 (mean (l1 ++ l2))) := by
  have hf : filteredPrices (l1 ++ o :: l2) = l1 ++ l2 := by
    unfold filteredPrices
    rw [List.filter_append, List.filter_cons]
    rw [decide_eq_false (not_le.mpr hout)]
    simp only [Bool.false_eq_true, if_false]
    rw [List.filter_eq_self.mpr fun p hp =>
        decide_eq_true (hin p (List.mem_append_left _ hp)),
      List.filter_eq_self.mpr fun p hp =>
        decide_eq_true (hin p (List.mem_append_right _ hp))]
  have hlen2 : (l1 ++ o :: l2).length = l1.length + l2.length + 1 := by
    simp [List.length_append]
    omega
  have hlen3 : (l1 ++ l2).length = l1.length + l2.length := by
    simp [List.length_append]
  unfold consensus_price
  rw [hf, if_neg (by omega), if_neg (by omega)]

/-- Witness for C2: in [150.00, 200.00, 150.40] the median is 150.40, the
reading 200.00 deviates by about 33% and is excluded, and the consensus is
the rounded mean of the remaining cluster [150.00, 150.40]. -/
theorem consensus_excludes_single_outlier_witness :
    consensus_price [(150 : ℚ), 200, 752/5] = some (round2 (mean [(150 : ℚ), 752/5])) := by
  have hm : median [(150 : ℚ), 200, 752/5] = 752/5 := by
    unfold median
    norm_num [List.insertionSort, List.orderedInsert, List.getD_cons_zero,
      List.getD_cons_succ]
  refine consensus_excludes_single_outlier [150] [752/5] 200 (by norm_num)
    (by norm_num [MIN_VALID_SOURCES]) ?_ ?_
  · simp only [List.cons_append, List.nil_append]
    rw [hm, MAX_PRICE_DEVIATION, abs_of_nonneg (by norm_num)]
    norm_num
  · intro p hp
    simp only [List.cons_append, List.nil_append] at hp ⊢
    rw [hm]
    rcases List.mem_pair.mp hp with h | h <;> subst h <;> rw [MAX_PRICE_DEVIATION]
    · rw [abs_of_nonpos (by norm_num)]
      norm_num
    · rw [abs_of_nonneg (by norm_num)]
      norm_num

/-! ## Claims about the engine -/

/-- C3: every fetch call that produces a Success result with `validCount`
valid readings out of `totalSources` registered adapters has confidence
`round(min(1.0, validCount / totalSources + 0.1), 2)`. -/
theorem success_confidence_formula (symbol : String) (mo : Bool)
    (readings : List (String × Option ℚ)) (s : String) (p c : ℚ)
    (used : List String) (m : List (String × SourceEntry)) (ms : String)
    (h : fetch_price symbol mo readings = FetchResult.success s p c used m ms) :
    c = round2 (min 1 ((validCount readings : ℚ) / (readings.length : ℚ) + 1 / 10)) := by
  unfold fetch_price at h
  split at h
  · exact absurd h (by simp)
  · split at h
    · exact absurd h (by simp)
    · rw [FetchResult.success.injEq] at h
      rw [← h.2.2.1]
      unfold confidence_score
      simp

/-- Witness for C3: one adapter succeeds with 150.00 and one fails; the
Success confidence is round(min(1, 1/2 + 0.1), 2) = 0.6. -/
theorem success_confidence_formula_witness :
    (3 / 5 : ℚ) = round2 (min 1
      ((validCount [("YahooFinance", some 150), ("Stooq", none)] : ℚ) /
        (([("YahooFinance", (some 150 : Option ℚ)), ("Stooq", none)].length : Nat) : ℚ) + 1 / 10)) := by
  refine success_confidence_formula "AAPL" true
    [("YahooFinance", some 150), ("Stooq", none)] ("AAPL".toUpper) 150 (3 / 5)
    ["YahooFinance"]
    [("YahooFinance", SourceEntry.price 150), ("Stooq", SourceEntry.failed)]
    "OPEN" ?_
  unfold fetch_price
  rw [if_neg (by decide)]
  have hraw : rawPrices [("YahooFinance", (some 150 : Option ℚ)), ("Stooq", none)] = [150] := rfl
  rw [hraw, consensus_price_singleton]
  have hconf : confidence_score
      (validCount [("YahooFinance", (some 150 : Option ℚ)), ("Stooq", none)])
      ([("YahooFinance", (some 150 : Option ℚ)), ("Stooq", none)].length) true = 3 / 5 := by
    have hvc : validCount [("YahooFinance", (some 150 : Option ℚ)), ("Stooq", none)] = 1 := rfl
    rw [hvc]
    unfold confidence_score
    simp only [Bool.not_true, Bool.false_eq_true, if_false]
    have harg : ((1 : Nat) : ℚ) /
        (([("YahooFinance", (some 150 : Option ℚ)), ("Stooq", none)].length : Nat) : ℚ) +
          1 / 10 = 3 / 5 := by
      norm_num
    rw [harg, min_eq_right (by norm_num), round2_eval (3 / 5) 60 (by norm_num)]
    norm_num
  rw [hconf]
  rfl

/-- C4: every fetch call with fewer valid readings than `MIN_VALID_SOURCES`
returns a Failure of kind `INSUFFICIENT_DATA` whose message states the
required and found counts, carrying the full per-source map in which each
failed source is marked with the `"FAILED"` sentinel. -/
theorem insufficient_data_failure (symbol : String) (mo : Bool)
    (readings : List (String × Option ℚ))
    (h : validCount readings < MIN_VALID_SOURCES) :
    fetch_price symbol mo readings =
      FetchResult.failure "INSUFFICIENT_DATA"
        (insufficientMsg (validCount readings)) (sourceMap readings)
    ∧ ∀ sr ∈ readings, is_valid_price sr.2 = false →
        (sr.1, SourceEntry.failed) ∈ sourceMap readings := by
  constructor
  · unfold fetch_price
    rw [if_pos h]
  · intro sr hsr _
    have hvc0 : validCount readings = 0 := by
      have : MIN_VALID_SOURCES = 1 := rfl
      omega
    have hnil : validPrices readings = [] := by
      have := validCount_eq readings
      have hlen0 : (validPrices readings).length = 0 := by omega
      exact List.length_eq_zero.mp hlen0
    have hall : ∀ x ∈ readings, entryOf x = SourceEntry.failed := by
      intro x hx
      have hnone : (if is_valid_price x.2 then some (x.2.getD 0) else none) =
          (none : Option ℚ) := List.filterMap_eq_nil_iff.mp hnil x hx
      unfold entryOf
      by_cases hb : is_valid_price x.2
      · rw [if_pos hb] at hnone
        exact absurd hnone (by simp)
      · rw [if_neg hb]
    rw [sourceMap_eq]
    have hkey : sr.1 ∈ (mapFold [] readings).map Prod.fst :=
      mapFold_key_of_reading readings [] sr hsr
    rcases List.mem_map.mp hkey with ⟨kv, hkv, hfst⟩
    have hval : kv.2 = SourceEntry.failed :=
      mapFold_values_failed readings [] (by simp) hall kv hkv
    have : kv = (sr.1, SourceEntry.failed) := by
      rcases kv with ⟨a, b⟩
      simp only at hfst hval
      rw [hfst, hval]
    exact this ▸ hkv

/-- Witness for C4: both adapters unavailable gives the `INSUFFICIENT_DATA`
failure carrying the per-source map. -/
theorem insufficient_data_failure_witness :
    fetch_price "AAPL" true [("YahooFinance", none), ("Stooq", none)] =
      FetchResult.failure "INSUFFICIENT_DATA"
        (insufficientMsg (validCount [("YahooFinance", none), ("Stooq", none)]))
        (sourceMap [("YahooFinance", none), ("Stooq", none)]) :=
  (insufficient_data_failure "AAPL" true
    [("YahooFinance", none), ("Stooq", none)] (by decide)).1

/-- C5: when the minimum-source check passes but the consensus over the
gathered prices yields no result, fetch returns a Failure of kind
`LOW_CONFIDENCE` whose message cites the maximum allowed deviation (the
witness instantiates the spec's 150.00 / 200.00 scenario). -/
theorem low_confidence_failure (symbol : String) (mo : Bool)
    (readings : List (String × Option ℚ))
    (h1 : MIN_VALID_SOURCES ≤ validCount readings)
    (h2 : consensus_price (rawPrices readings) = none) :
    fetch_price symbol mo readings =
      FetchResult.failure "LOW_CONFIDENCE" lowConfidenceMsg (sourceMap readings) := by
  unfold fetch_price
  rw [if_neg (by omega), h2]

/-- Witness for C5: the spec's scenario, readings 150.00 and 200.00, ends in
the `LOW_CONFIDENCE` failure. -/
theorem low_confidence_failure_witness :
    fetch_price "AAPL" true [("YahooFinance", some 150), ("Stooq", some 200)] =
      FetchResult.failure "LOW_CONFIDENCE" lowConfidenceMsg
        (sourceMap [("YahooFinance", some 150), ("Stooq", some 200)]) := by
  have hm : median [(150 : ℚ), 200] = 175 := by
    unfold median
    norm_num [List.insertionSort, List.orderedInsert, List.getD_cons_zero,
      List.getD_cons_succ]
  have hfp : filteredPrices [(150 : ℚ), 200] = [] := by
    unfold filteredPrices
    simp only [List.filter_cons, List.filter_nil, hm]
    rw [decide_eq_false (by rw [abs_of_nonpos (by norm_num), MAX_PRICE_DEVIATION]; norm_num),
      decide_eq_false (by rw [abs_of_nonneg (by norm_num), MAX_PRICE_DEVIATION]; norm_num)]
    simp
  have h2 : consensus_price
      (rawPrices [("YahooFinance", (some 150 : Option ℚ)), ("Stooq", some 200)]) = none := by
    have hraw : rawPrices [("YahooFinance", (some 150 : Option ℚ)), ("Stooq", some 200)] =
        [150, 200] := rfl
    rw [hraw]
    unfold consensus_price
    rw [hfp, if_neg (by norm_num [MIN_VALID_SOURCES]), if_pos (by norm_num [MIN_VALID_SOURCES])]
  exact low_confidence_failure "AAPL" true
    [("YahooFinance", some 150), ("Stooq", some 200)] (by decide) h2

/-- C6: the confidence of a fetch result is 0 if and only if the result is a
Failure (a Failure dict carries no confidence field, which the model reads
as 0), and every Success result has strictly positive confidence. -/
theorem confidence_zero_iff_failure (symbol : String) (mo : Bool)
    (readings : List (String × Option ℚ)) :
    (result_confidence (fetch_price symbol mo readings) = 0 ↔
      isFailure (fetch_price symbol mo readings) = true)
    ∧ (isFailure (fetch_price symbol mo readings) = false →
      0 < result_confidence (fetch_price symbol mo readings)) := by
  unfold fetch_price
  split
  · simp [result_confidence, isFailure]
  · split
    · simp [result_confidence, isFailure]
    · have hpos := confidence_score_true_pos (validCount readings) readings.length
      constructor
      · simp only [result_confidence, isFailure]
        constructor
        · intro h0
          exact absurd h0.symm (ne_of_lt hpos)
        · intro hf
          exact absurd hf (by simp)
      · intro _
        simpa [result_confidence] using hpos

/-- C7: for every fetch call, whether it ends in Success or either Failure
kind, the per-source map of the result has exactly one entry per registered
adapter, keyed by adapter name, in registration order. -/
theorem per_source_map_keys (symbol : String) (mo : Bool)
    (readings : List (String × Option ℚ))
    (h : (readings.map Prod.fst).Nodup) :
    (result_source_prices (fetch_price symbol mo readings)).map Prod.fst =
      readings.map Prod.fst := by
  rw [result_source_prices_fetch, sourceMap_eq]
  simpa using mapFold_keys readings [] (by simpa using h)

/-- Witness for C7: a fetch over the two registered adapters (one failing)
yields a per-source map keyed by the adapter names in registration order. -/
theorem per_source_map_keys_witness :
    (result_source_prices (fetch_price "AAPL" true
      [("YahooFinance", some 150), ("Stooq", none)])).map Prod.fst =
      ["YahooFinance", "Stooq"] :=
  per_source_map_keys "AAPL" true
    [("YahooFinance", some 150), ("Stooq", none)] (by decide)

/-- C8: the market clock returns true exactly when the wall-clock time,
shifted by the fixed exchange offset, falls within the half-open window
[09:30, 16:00) and lands on a weekday (Saturday and Sunday excluded). -/
theorem market_clock_window (t : Int) :
    market_is_open t = true ↔ marketOpenSpec t := by
  unfold market_is_open marketOpenSpec
  simp only [Bool.and_eq_true, Bool.or_eq_true, Bool.not_eq_true',
    decide_eq_true_eq, decide_eq_false_iff_not, MARKET_OPEN_TIME,
    MARKET_CLOSE_TIME]
  omega


/-- C9: for every non-empty list of strictly positive prices (the only lists
`consensus_price` is called with, since every reading passes the
`is_valid_price` filter requiring `price > 0`), the median is strictly
positive, so the division by the median in the deviation filter is
well-defined and Python's division-by-zero error is unreachable. -/
theorem median_positive (prices : List ℚ) (hne : prices ≠ [])
    (hpos : ∀ p ∈ prices, 0 < p) : 0 < median prices := by
  have hlen : (prices.insertionSort (· ≤ ·)).length = prices.length :=
    List.length_insertionSort _ _
  have hlen0 : 0 < prices.length := List.length_pos.mpr hne
  unfold median
  by_cases h : prices.length % 2 = 1
  · simp only [h, if_pos]
    have hlt : prices.length / 2 < (prices.insertionSort (· ≤ ·)).length := by omega
    rw [List.getD_eq_getElem _ _ hlt]
    exact hpos _ ((List.mem_insertionSort _).mp (List.getElem_mem hlt))
  · simp only [h, if_neg, if_false]
    have hlt1 : prices.length / 2 - 1 < (prices.insertionSort (· ≤ ·)).length := by omega
    have hlt2 : prices.length / 2 < (prices.insertionSort (· ≤ ·)).length := by omega
    rw [List.getD_eq_getElem _ _ hlt1, List.getD_eq_getElem _ _ hlt2]
    have h1 := hpos _ ((List.mem_insertionSort _).mp (List.getElem_mem hlt1))
    have h2 := hpos _ ((List.mem_insertionSort _).mp (List.getElem_mem hlt2))
    positivity

/-- Witness for C9: a concrete non-empty positive price list has a positive
median. -/
theorem median_positive_witness : 0 < median [(150 : ℚ), 752/5] :=
  median_positive [(150 : ℚ), 752/5] (by simp) (by norm_num)

/-- C10: for every list of strictly positive prices of odd length,
`consensus_price` returns a result (the median is itself an element, with
zero deviation, so the filtered set is non-empty), and consequently the
`LOW_CONFIDENCE` failure of fetch is unreachable whenever the number of
valid readings is odd. -/
theorem odd_count_no_low_confidence :
    (∀ prices : List ℚ, (∀ p ∈ prices, 0 < p) → prices.length % 2 = 1 →
      ∃ c, consensus_price prices = some c)
    ∧ ∀ (symbol : String) (mo : Bool) (readings : List (String × Option ℚ)),
        validCount readings % 2 = 1 → ∀ (msg : String)
          (m : List (String × SourceEntry)),
          fetch_price symbol mo readings ≠
            FetchResult.failure "LOW_CONFIDENCE" msg m := by
  constructor
  · exact consensus_some_of_odd
  · intro symbol mo readings hodd msg m heq
    have hMIN : MIN_VALID_SOURCES = 1 := rfl
    unfold fetch_price at heq
    split at heq
    · rw [FetchResult.failure.injEq] at heq
      exact absurd heq.1 (by decide)
    · split at heq
      · next hcons =>
        obtain ⟨c, hc⟩ := consensus_some_of_odd (rawPrices readings)
          (by rw [rawPrices_eq]; exact validPrices_pos readings)
          (by rw [rawPrices_eq]; rw [validCount_eq] at hodd; exact hodd)
        rw [hc] at hcons
        exact absurd hcons (by simp)
      · exact absurd heq (by simp)

/-- Witness for C10: a singleton positive price list yields a consensus, and
a fetch with one valid reading cannot end in `LOW_CONFIDENCE`. -/
theorem odd_count_no_low_confidence_witness :
    (∃ c, consensus_price [(100 : ℚ)] = some c) ∧
      fetch_price "AAPL" true [("YahooFinance", some 150)] ≠
        FetchResult.failure "LOW_CONFIDENCE" lowConfidenceMsg [] :=
  ⟨odd_count_no_low_confidence.1 [(100 : ℚ)] (by norm_num) (by norm_num),
    odd_count_no_low_confidence.2 "AAPL" true [("YahooFinance", some 150)]
      (by decide) lowConfidenceMsg []⟩
